import Mathlib

/-!
Verification of the `duperrormsg` analyzer (duperrormsg.go).

The analyzer walks every call expression of a compilation unit, recognizes
message-producing constructs (`getErrorConstructName`), extracts and
normalizes the literal message (`extractErrorMessage`, `extractStringLiteral`),
accumulates occurrences in a map keyed by the normalized message, and reports
every key with more than one occurrence.

We embed the relevant AST shapes and translate each Go function. Machine
concerns (byte vs rune indexing) are irrelevant here because all comparisons
are exact character comparisons on ASCII data; we work on `List Char`.
-/

namespace Duperrormsg

/-- Kind of a Go basic literal; the analyzer only distinguishes string
literals (`token.STRING`) from everything else. -/
inductive LitKind where
  | str
  | other
deriving DecidableEq

/-- Go AST expressions, restricted to the shapes `duperrormsg` inspects:
identifiers, basic literals, selector expressions `x.sel`, call expressions,
and an opaque constructor for every other node kind. -/
inductive Expr where
  | ident (name : String)
  | basicLit (kind : LitKind) (value : String)
  | selector (x : Expr) (sel : String)
  | callE (fn : Expr) (args : List Expr)
  | otherExpr

/-- A source position (what `pass.Fset.Position` resolves a `token.Pos` to). -/
structure Pos where
  file : String
  line : Nat
  col : Nat
deriving DecidableEq

/-- `token.Position.String()` for a fully populated position: `file:line:column`. -/
def Pos.render (p : Pos) : String :=
  p.file ++ ":" ++ toString p.line ++ ":" ++ toString p.col

/-- One call expression visited by the inspector: callee, ordered arguments,
and the node's source position. -/
structure CallNode where
  fn : Expr
  args : List Expr
  pos : Pos

/-- `ErrorInfo` from duperrormsg.go: position of the node plus the construct
name that matched. -/
structure ErrorInfo where
  pos : Pos
  construct : String
deriving DecidableEq

/-- One reported diagnostic: position plus formatted message. -/
structure Diagnostic where
  pos : Pos
  message : String
deriving DecidableEq

/- ### String helpers mirroring the `strings` package -/

/-- `strings.Contains s sub` on character lists. -/
def strContains (s sub : String) : Bool :=
  s.data.tails.any (fun t => sub.data.isPrefixOf t)

/-- `strings.HasPrefix s p`. -/
def strStartsWith (s p : String) : Bool :=
  p.data.isPrefixOf s.data

/-- `strings.HasSuffix s p`. -/
def strEndsWith (s p : String) : Bool :=
  p.data.isSuffixOf s.data

/-- `strings.ToLower` on the identifier names this analyzer handles (ASCII):
lower-case every character. -/
def strToLower (s : String) : String :=
  String.mk (s.data.map Char.toLower)

/- ### Message normalizer (`extractStringLiteral`) -/

/-- The two characters of the cutset in `strings.Trim(e.Value, "` ++ "\x60" ++ "\"")`:
backquote (code 96) and double quote. -/
def isQuoteDelim (c : Char) : Bool :=
  c == Char.ofNat 96 || c == Char.ofNat 34

/-- `strings.Trim` with the quote cutset: remove every leading and trailing
character that is a quote or backquote. -/
def goTrim (l : List Char) : List Char :=
  ((l.dropWhile isQuoteDelim).reverse.dropWhile isQuoteDelim).reverse

/-- Characters of the regexp class `[a-zA-Z0-9.\-+#]` used between `%` and the
final letter of a format specifier. Note that it includes the letters. -/
def isSpecClassChar (c : Char) : Bool :=
  c.isAlpha || c.isDigit || c == '.' || c == '-' || c == '+' || c == '#'

/-- The final class `[a-zA-Z]` of the format-specifier regexp. -/
def isFmtLetter (c : Char) : Bool :=
  c.isAlpha

/-- The prefix of `run` that extends up to (and includes) the last letter of
`run`; empty when `run` contains no letter. This is exactly how far the greedy
match `%[a-zA-Z0-9.\-+#]*[a-zA-Z]` reaches past the `%`. -/
def lastLetterSeg (run : List Char) : List Char :=
  (run.reverse.dropWhile (fun c => !isFmtLetter c)).reverse

/-- Worker for `normalizeFormat`. The second argument counts characters that
were already consumed by a match and must be skipped (a structural rendering
of continuing the scan after the match; see `nfGo_skip`). In state `0`: at
each `%`, the greedy match of `%[a-zA-Z0-9.\-+#]*[a-zA-Z]` consumes the
maximal run of class characters up to its last letter; if the run has no
letter the `%` does not start a match and is kept. -/
def nfGo : List Char → Nat → List Char
  | [], _ => []
  | _ :: rest, n + 1 => nfGo rest n
  | c :: rest, 0 =>
    if c == '%' then
      let pre := lastLetterSeg (rest.takeWhile isSpecClassChar)
      if pre.isEmpty then
        c :: nfGo rest 0
      else
        '%' :: 'x' :: nfGo rest pre.length
    else
      c :: nfGo rest 0

/-- `regexp.MustCompile("%[a-zA-Z0-9.\\-+#]*[a-zA-Z]").ReplaceAllString(raw, "%x")`
as a left-to-right scan. -/
def normalizeFormat (l : List Char) : List Char :=
  nfGo l 0

/-- `extractStringLiteral` from duperrormsg.go: for a string basic literal,
trim quote delimiters and collapse format specifiers to `%x`; every other
expression yields the empty string. -/
def extractStringLiteral (e : Expr) : String :=
  match e with
  | .basicLit .str v => String.mk (normalizeFormat (goTrim v.data))
  | _ => ""

/- ### Construct recognizer (`getErrorConstructName`) -/

/-- The outer method names accepted for chained calls like
`logger.Info().Logf(...)`. -/
def chainedLogName (sel : String) : Bool :=
  sel == "Logf" || sel == "LogErrorf" || sel == "LogError" || sel == "Log"

/-- `pkgIdent.Name == "log" || strings.Contains(strings.ToLower(pkgIdent.Name), "log")`. -/
def isLogNamespace (name : String) : Bool :=
  name == "log" || strContains (strToLower name) "log"

/-- `logFuncSuffixes` from duperrormsg.go. -/
def logFuncSuffixes : List String :=
  ["", "f", "ln",
   "Error", "Errorf", "Errorln",
   "Fatal", "Fatalf", "Fatalln",
   "Panic", "Panicf", "Panicln",
   "Warning", "Warningf", "Warningln",
   "Info", "Infof", "Infoln"]

/-- The suffix loop: the selector matches a suffix directly, or with the
`Log`/`Print` stems. -/
def logSuffixMatch (sel : String) : Bool :=
  logFuncSuffixes.any (fun suffix =>
    sel == suffix || sel == "Log" ++ suffix || sel == "Print" ++ suffix)

/-- The naming-convention test for selector calls: ends with `Error`, starts
with `New`, contains `Error`, or contains `fail` case-insensitively. -/
def fallbackNameMatch (sel : String) : Bool :=
  strEndsWith sel "Error" || strStartsWith sel "New" ||
    strContains sel "Error" || strContains (strToLower sel) "fail"

/-- The bare-identifier test: starts with `New` and contains one of `Error`,
`Err`, `Fail`. -/
def bareNewErrorMatch (name : String) : Bool :=
  strStartsWith name "New" &&
    (strContains name "Error" || strContains name "Err" || strContains name "Fail")

/-- `getErrorConstructName` from duperrormsg.go, by cases on the callee shape. -/
def getErrorConstructName (fn : Expr) : String :=
  match fn with
  | .selector x sel =>
    match x with
    | .callE _ _ =>
      if chainedLogName sel then sel else ""
    | .ident pkg =>
      if pkg == "errors" && sel == "New" then "errors.New"
      else if pkg == "fmt" && sel == "Errorf" then "fmt.Errorf"
      else if isLogNamespace pkg && logSuffixMatch sel then pkg
      else if fallbackNameMatch sel then sel
      else ""
    | _ => ""
  | .ident name =>
    if bareNewErrorMatch name then name else ""
  | _ => ""

/- ### Message extraction (`extractErrorMessage`) -/

/-- `lit.Kind == token.STRING` guard on an argument expression. -/
def isStringLitB : Expr → Bool
  | .basicLit .str _ => true
  | _ => false

/-- The construct names handled by the log case of the `switch` in
`extractErrorMessage`. -/
def logConstructNames : List String :=
  ["log", "logger", "Log", "Logf", "LogError", "LogErrorf"]

/-- The `switch construct` of `extractErrorMessage`: which argument holds the
message. `errors.New` requires exactly one argument; `fmt.Errorf` and the log
constructs take the first argument; every other construct takes the first
argument if it is a string literal and otherwise the first string literal
among all arguments. -/
def msgArgOf (construct : String) (args : List Expr) : Option Expr :=
  if construct == "errors.New" then
    if args.length != 1 then none else args.head?
  else if construct == "fmt.Errorf" then
    args.head?
  else if construct ∈ logConstructNames then
    args.head?
  else
    match args with
    | [] => none
    | a :: _ => if isStringLitB a then some a else args.find? isStringLitB

/-- `extractErrorMessage` from duperrormsg.go. Returns `("", "")` when the
call is ignored. -/
def extractErrorMessage (c : CallNode) : String × String :=
  let construct := getErrorConstructName c.fn
  if construct == "" then ("", "")
  else if c.args.isEmpty then ("", "")
  else
    match msgArgOf construct c.args with
    | none => ("", "")
    | some arg =>
      let msg := extractStringLiteral arg
      if msg == "" then ("", "") else (construct, msg)

/- ### Walker, registry and reporter (`run`) -/

/-- The body of the `Preorder` callback for one node: the `(key, ErrorInfo)`
record appended to the registry, or `none` when the call contributes nothing. -/
def recordOf (c : CallNode) : Option (String × ErrorInfo) :=
  let cm := extractErrorMessage c
  if cm.1 == "" || cm.2 == "" then none
  else some (cm.2, { pos := c.pos, construct := cm.1 })

/-- All records produced by a traversal, in traversal order. -/
def records (nodes : List CallNode) : List (String × ErrorInfo) :=
  nodes.filterMap recordOf

/-- `errorMap[k]`: the occurrence list of key `k`, in append (= traversal)
order, as built by `errorMap[msg] = append(errorMap[msg], info)`. -/
def lookupAll (k : String) (recs : List (String × ErrorInfo)) : List ErrorInfo :=
  recs.filterMap (fun r => if r.1 == k then some r.2 else none)

/-- The distinct keys of the registry, listed in first-insertion order.
Go's map iteration order is unspecified; this is the canonical enumeration we
use for the deterministic model (see `runWithOrder` for the general form). -/
def firstKeys : List (String × ErrorInfo) → List String
  | [] => []
  | r :: rest => r.1 :: (firstKeys rest).filter (fun k => k != r.1)

/-- The model of `%q` applied to a normalized key (keys in this development
contain no characters that `strconv` would escape). -/
def goQuote (s : String) : String :=
  "\"" ++ s ++ "\""

/-- The diagnostics emitted for one key: nothing unless the key has more than
one occurrence; otherwise the primary diagnostic at the first occurrence and
one secondary diagnostic per later occurrence, referencing the first. -/
def reportGroup (k : String) (locs : List ErrorInfo) : List Diagnostic :=
  match locs with
  | [] => []
  | first :: rest =>
    if 0 < rest.length then
      { pos := first.pos
        message := "duplicate error message " ++ goQuote k ++ " used in multiple locations" } ::
      rest.map (fun info =>
        { pos := info.pos
          message := "duplicate error message " ++ goQuote k ++ " also used at " ++
            Pos.render first.pos })
    else []

/-- The reporting loop `for msg, locations := range errorMap`, parameterized
by the order in which the map enumerates its keys (Go leaves it unspecified
and randomizes it at runtime). -/
def runWithOrder (nodes : List CallNode) (keyOrder : List String) : List Diagnostic :=
  (keyOrder.map (fun k => reportGroup k (lookupAll k (records nodes)))).flatten

/-- The whole pass on one traversal's call nodes, with the registry keys
enumerated in first-insertion order. -/
def run (nodes : List CallNode) : List Diagnostic :=
  runWithOrder nodes (firstKeys (records nodes))

/-- The multi-member groups of the registry: every `(key, occurrences)` pair
with at least two occurrences, keys in first-insertion order. -/
def groups (nodes : List CallNode) : List (String × List ErrorInfo) :=
  (firstKeys (records nodes)).filterMap (fun k =>
    let locs := lookupAll k (records nodes)
    if 1 < locs.length then some (k, locs) else none)

/- ### Spec-side definitions

These follow the wording of specification sentences under scrutiny, to be
compared against the definitions translated from the source. -/

/-- The flag/width/precision set the specification names for the middle of a
format specifier: digits, `.`, `-`, `+`, `#` — and nothing else, in
particular no letters. -/
def specClaimedFlagChar (c : Char) : Bool :=
  c.isDigit || c == '.' || c == '-' || c == '+' || c == '#'

/-- Worker for `specClaimedNormalize`, with the same skip-counter scheme as
`nfGo`: in state `0`, a percent sign followed by zero or more flag characters
and exactly one letter is replaced and the consumed characters are skipped;
any other percent sign is kept. -/
def specClaimedGo : List Char → Nat → List Char
  | [], _ => []
  | _ :: rest, n + 1 => specClaimedGo rest n
  | c :: rest, 0 =>
    if c == '%' then
      let k := (rest.takeWhile specClaimedFlagChar).length
      match rest[k]? with
      | some d =>
        if isFmtLetter d then '%' :: 'x' :: specClaimedGo rest (k + 1)
        else c :: specClaimedGo rest 0
      | none => c :: specClaimedGo rest 0
    else
      c :: specClaimedGo rest 0

/-- Normalization as the specification sentence describes it: replace every
maximal substring made of a percent sign, zero or more flag/width/precision
characters (digits, `.`, `-`, `+`, `#`), and exactly one letter; leave every
other percent sign alone. -/
def specClaimedNormalize (l : List Char) : List Char :=
  specClaimedGo l 0

/-- Length of the longest prefix of `l` made of zero or more characters of
the regexp class followed by exactly one letter; `0` when no prefix has that
shape. This is how far the greedy regexp match reaches after a `%`. -/
def specMatchLen : List Char → Nat
  | [] => 0
  | c :: rest =>
    if isSpecClassChar c then
      let m := specMatchLen rest
      if 0 < m then m + 1
      else if isFmtLetter c then 1 else 0
    else 0

/-- Worker for `specAmendedNormalize`, with the same skip-counter scheme as
`nfGo`: in state `0`, every percent sign whose longest following
class-characters-then-letter match is non-empty is replaced and the match is
skipped; a percent sign with no match is kept. -/
def specAmendedGo : List Char → Nat → List Char
  | [], _ => []
  | _ :: rest, n + 1 => specAmendedGo rest n
  | c :: rest, 0 =>
    if c == '%' then
      let m := specMatchLen rest
      if m = 0 then c :: specAmendedGo rest 0
      else '%' :: 'x' :: specAmendedGo rest m
    else
      c :: specAmendedGo rest 0

/-- The amended normalization statement: at every percent sign, replace the
longest following substring made of class characters (letters, digits, `.`,
`-`, `+`, `#`) followed by one letter; a percent sign with no such match is
left untouched. -/
def specAmendedNormalize (l : List Char) : List Char :=
  specAmendedGo l 0

/-- Delimiter stripping as the specification sentence describes it: remove
exactly one surrounding pair of identical quoting delimiters, leaving any
interior quote characters intact. -/
def specStripOnePair (l : List Char) : List Char :=
  match l.head?, l.getLast? with
  | some c, some d =>
    if isQuoteDelim c = true ∧ c = d ∧ 2 ≤ l.length then (l.drop 1).dropLast else l
  | _, _ => l

/-- Go's interpreted-string-literal decoding, restricted to the newline
escape. The analyzer itself never decodes escapes; this definition only
serves to state that two differently written literal tokens denote the same
runtime string. -/
def decodeNewlineEscape : List Char → List Char
  | [] => []
  | '\\' :: 'n' :: rest => '\n' :: decodeNewlineEscape rest
  | c :: rest => c :: decodeNewlineEscape rest

/- ### Sample inputs used by witnesses and counterexamples -/

def samplePos1 : Pos := ⟨"a.go", 3, 2⟩

def samplePos2 : Pos := ⟨"a.go", 4, 2⟩

def samplePos3 : Pos := ⟨"a.go", 9, 2⟩

def samplePos4 : Pos := ⟨"a.go", 10, 2⟩

/-- `errors.New("connection failed")`, first occurrence. -/
def sampleConn1 : CallNode :=
  ⟨.selector (.ident "errors") "New", [.basicLit .str "\"connection failed\""], samplePos1⟩

/-- `errors.New("connection failed")`, second occurrence. -/
def sampleConn2 : CallNode :=
  ⟨.selector (.ident "errors") "New", [.basicLit .str "\"connection failed\""], samplePos2⟩

/-- `fmt.Errorf("other failure")`, first occurrence. -/
def sampleOther1 : CallNode :=
  ⟨.selector (.ident "fmt") "Errorf", [.basicLit .str "\"other failure\""], samplePos3⟩

/-- `fmt.Errorf("other failure")`, second occurrence. -/
def sampleOther2 : CallNode :=
  ⟨.selector (.ident "fmt") "Errorf", [.basicLit .str "\"other failure\""], samplePos4⟩

/-- `errors.New("unique message")`: a key with exactly one occurrence. -/
def sampleUnique : CallNode :=
  ⟨.selector (.ident "errors") "New", [.basicLit .str "\"unique message\""], ⟨"a.go", 20, 2⟩⟩

/-- A traversal with one duplicated key and one singleton key. -/
def sampleNodes : List CallNode := [sampleConn1, sampleConn2, sampleUnique]

/-- A traversal with two duplicated keys. -/
def sampleNodes4 : List CallNode := [sampleConn1, sampleConn2, sampleOther1, sampleOther2]

def sampleRec1 : String × ErrorInfo := ("connection failed", ⟨samplePos1, "errors.New"⟩)

def sampleRec2 : String × ErrorInfo := ("connection failed", ⟨samplePos2, "errors.New"⟩)

/-- `fmt.Errorf("user %s not found", name)`. -/
def sampleUserS : CallNode :=
  ⟨.selector (.ident "fmt") "Errorf",
    [.basicLit .str "\"user %s not found\"", .ident "name"], ⟨"f.go", 5, 2⟩⟩

/-- `fmt.Errorf("user %v not found", name)`. -/
def sampleUserV : CallNode :=
  ⟨.selector (.ident "fmt") "Errorf",
    [.basicLit .str "\"user %v not found\"", .ident "name"], ⟨"f.go", 6, 2⟩⟩

/-- `log.Printf("request failed: %d", code)`. -/
def sampleLogPrintf : CallNode :=
  ⟨.selector (.ident "log") "Printf",
    [.basicLit .str "\"request failed: %d\"", .ident "code"], ⟨"b.go", 1, 1⟩⟩

/-- A call the recognizer does not match: `helper("x")`. -/
def sampleUnmatched : CallNode :=
  ⟨.ident "helper", [.basicLit .str "\"x\""], ⟨"d.go", 1, 1⟩⟩

/-- A recognized shape whose message argument is not a string literal:
`errors.New(y)`. -/
def sampleNonLit : CallNode :=
  ⟨.selector (.ident "errors") "New", [.ident "y"], ⟨"d.go", 2, 1⟩⟩

/-- A recognized call whose message normalizes to the empty string:
`errors.New("")`. -/
def sampleEmptyLit : CallNode :=
  ⟨.selector (.ident "errors") "New", [.basicLit .str "\"\""], ⟨"d.go", 3, 1⟩⟩

/-- A fallback-recognized call with no string literal among any of its
arguments: `svc.NewUserError(x)`. -/
def sampleFallbackNoLit : CallNode :=
  ⟨.selector (.ident "svc") "NewUserError", [.ident "x"], ⟨"d.go", 4, 1⟩⟩

/- ### Normalizer scan lemmas -/

/-- The skip state of `nfGo` only drops the corresponding prefix. -/
theorem nfGo_skip : ∀ (l : List Char) (n : Nat), nfGo l n = nfGo (l.drop n) 0 := by
  intro l
  induction l with
  | nil => intro n; cases n <;> rfl
  | cons c rest ih =>
    intro n
    cases n with
    | zero => rfl
    | succ n => rw [show nfGo (c :: rest) (n + 1) = nfGo rest n from rfl, ih n]; rfl

/-- One unfolding step of `normalizeFormat`, in the shape of the regexp
scan: keep the character, or replace the match and continue after it. -/
theorem normalizeFormat_cons (c : Char) (rest : List Char) :
    normalizeFormat (c :: rest) =
      if c == '%' then
        (if (lastLetterSeg (rest.takeWhile isSpecClassChar)).isEmpty then
          c :: normalizeFormat rest
        else
          '%' :: 'x' ::
            normalizeFormat (rest.drop (lastLetterSeg (rest.takeWhile isSpecClassChar)).length))
      else c :: normalizeFormat rest := by
  show nfGo (c :: rest) 0 = _
  rw [show nfGo (c :: rest) 0 =
    (if c == '%' then
      (if (lastLetterSeg (rest.takeWhile isSpecClassChar)).isEmpty then c :: nfGo rest 0
       else '%' :: 'x' :: nfGo rest (lastLetterSeg (rest.takeWhile isSpecClassChar)).length)
     else c :: nfGo rest 0) from rfl]
  rw [nfGo_skip rest (lastLetterSeg (rest.takeWhile isSpecClassChar)).length]
  rfl

/- ### Registry lemmas -/

theorem mem_lookupAll {k : String} {info : ErrorInfo}
    {recs : List (String × ErrorInfo)} :
    info ∈ lookupAll k recs ↔ (k, info) ∈ recs := by
  simp only [lookupAll, List.mem_filterMap]
  constructor
  · rintro ⟨⟨k', i'⟩, hmem, hsome⟩
    by_cases hk : k' = k
    · subst hk
      simp only [beq_self_eq_true, if_pos] at hsome
      cases hsome
      exact hmem
    · simp [hk] at hsome
  · intro hmem
    exact ⟨(k, info), hmem, by simp⟩

theorem mem_firstKeys {k : String} :
    ∀ {recs : List (String × ErrorInfo)},
      k ∈ firstKeys recs ↔ ∃ info, (k, info) ∈ recs := by
  intro recs
  induction recs with
  | nil => simp [firstKeys]
  | cons r rest ih =>
    simp only [firstKeys, List.mem_cons, List.mem_filter]
    constructor
    · rintro (h | ⟨h, _⟩)
      · exact ⟨r.2, Or.inl (by rw [h])⟩
      · obtain ⟨info, hinfo⟩ := ih.mp h
        exact ⟨info, Or.inr hinfo⟩
    · rintro ⟨info, h | h⟩
      · left; rw [← h]
      · by_cases hk : k = r.1
        · exact Or.inl hk
        · refine Or.inr ⟨ih.mpr ⟨info, h⟩, ?_⟩
          simp [hk]

theorem mem_groups {nodes : List CallNode} {k : String} {locs : List ErrorInfo} :
    (k, locs) ∈ groups nodes ↔
      k ∈ firstKeys (records nodes) ∧
        locs = lookupAll k (records nodes) ∧ 1 < locs.length := by
  simp only [groups, List.mem_filterMap]
  constructor
  · rintro ⟨k', hk', hsome⟩
    by_cases h : 1 < (lookupAll k' (records nodes)).length
    · rw [if_pos h] at hsome
      cases hsome
      exact ⟨hk', rfl, h⟩
    · rw [if_neg h] at hsome
      cases hsome
  · rintro ⟨hk, hlocs, hlen⟩
    subst hlocs
    exact ⟨k, hk, by rw [if_pos hlen]⟩

theorem lookupAll_cons_first {k : String} {first : ErrorInfo} {rest : List ErrorInfo} :
    ∀ {recs : List (String × ErrorInfo)},
      lookupAll k recs = first :: rest →
        ∃ pre post, recs = pre ++ (k, first) :: post ∧ ∀ r ∈ pre, r.1 ≠ k := by
  intro recs
  induction recs with
  | nil => intro h; simp [lookupAll] at h
  | cons r tail ih =>
    intro h
    rw [lookupAll, List.filterMap_cons] at h
    by_cases hk : r.1 = k
    · have hd : (if (r.1 == k) = true then some r.2 else none) = some r.2 := by
        simp [hk]
      rw [hd] at h
      injection h with h1 h2
      refine ⟨[], tail, ?_, by simp⟩
      obtain ⟨a, b⟩ := r
      simp only [List.nil_append]
      simp_all
    · have hd : (if (r.1 == k) = true then some r.2 else none) = none := by
        simp [hk]
      rw [hd] at h
      obtain ⟨pre, post, heq, hpre⟩ := ih h
      refine ⟨r :: pre, post, by rw [List.cons_append, heq], ?_⟩
      intro x hx
      rcases List.mem_cons.mp hx with hx | hx
      · rw [hx]; exact hk
      · exact hpre x hx

/- ### Normalizer lemmas -/

theorem lastLetterSeg_cons (c : Char) (run : List Char) :
    lastLetterSeg (c :: run) =
      if lastLetterSeg run = [] then (if isFmtLetter c then [c] else [])
      else c :: lastLetterSeg run := by
  unfold lastLetterSeg
  rw [List.reverse_cons, List.dropWhile_append]
  by_cases hD : run.reverse.dropWhile (fun x => !isFmtLetter x) = []
  · rw [hD]
    simp only [List.isEmpty_nil, if_true, List.reverse_nil, if_pos rfl]
    rw [List.dropWhile_cons]
    cases h : isFmtLetter c <;> simp [h]
  · rw [if_neg (by simp [List.isEmpty_iff, hD])]
    rw [if_neg (by simp [hD])]
    rw [List.reverse_append]
    rfl

theorem specMatchLen_eq (l : List Char) :
    specMatchLen l = (lastLetterSeg (l.takeWhile isSpecClassChar)).length := by
  induction l with
  | nil => rfl
  | cons c rest ih =>
    by_cases hc : isSpecClassChar c = true
    · rw [List.takeWhile_cons, if_pos hc, lastLetterSeg_cons]
      by_cases hE : lastLetterSeg (rest.takeWhile isSpecClassChar) = []
      · have h0 : specMatchLen rest = 0 := by rw [ih, hE]; rfl
        rw [if_pos hE, specMatchLen, if_pos hc]
        simp only [h0, Nat.lt_irrefl, if_false]
        cases h : isFmtLetter c <;> simp [h]
      · have h0 : 0 < specMatchLen rest := by
          rw [ih]
          exact List.length_pos.mpr hE
        rw [if_neg hE, specMatchLen, if_pos hc]
        simp only [h0, if_pos, if_true]
        rw [ih]
        simp
    · rw [List.takeWhile_cons, if_neg hc, specMatchLen, if_neg hc]
      rfl

theorem nfGo_eq_specAmendedGo : ∀ (l : List Char) (n : Nat), nfGo l n = specAmendedGo l n := by
  intro l
  induction l with
  | nil => intro n; rfl
  | cons c rest ih =>
    intro n
    cases n with
    | succ n => exact ih n
    | zero =>
      show (if c == '%' then
              (if (lastLetterSeg (rest.takeWhile isSpecClassChar)).isEmpty then c :: nfGo rest 0
               else '%' :: 'x' :: nfGo rest (lastLetterSeg (rest.takeWhile isSpecClassChar)).length)
            else c :: nfGo rest 0) =
           (if c == '%' then
              (if specMatchLen rest = 0 then c :: specAmendedGo rest 0
               else '%' :: 'x' :: specAmendedGo rest (specMatchLen rest))
            else c :: specAmendedGo rest 0)
      by_cases hc : (c == '%') = true
      · rw [if_pos hc, if_pos hc]
        by_cases hE : lastLetterSeg (rest.takeWhile isSpecClassChar) = []
        · rw [if_pos (by simp [List.isEmpty_iff, hE])]
          rw [if_pos (by rw [specMatchLen_eq, hE]; rfl)]
          rw [ih 0]
        · rw [if_neg (by simp [List.isEmpty_iff, hE])]
          rw [if_neg (by rw [specMatchLen_eq]; exact Nat.pos_iff_ne_zero.mp (List.length_pos.mpr hE))]
          rw [specMatchLen_eq, ih]
      · rw [if_neg hc, if_neg hc, ih 0]

/- ### Extraction lemmas -/

/-- An expression that is not a string basic literal extracts to the empty
string. -/
theorem extractStringLiteral_of_not_lit {a : Expr} (h : isStringLitB a = false) :
    extractStringLiteral a = "" := by
  cases a with
  | basicLit k v =>
    cases k with
    | str => simp [isStringLitB] at h
    | other => rfl
  | ident _ => rfl
  | selector _ _ => rfl
  | callE _ _ => rfl
  | otherExpr => rfl

/-- The message argument, when one is designated, is one of the call's
arguments. -/
theorem msgArgOf_mem {construct : String} {args : List Expr} {a : Expr}
    (h : msgArgOf construct args = some a) : a ∈ args := by
  unfold msgArgOf at h
  by_cases h1 : (construct == "errors.New") = true
  · rw [if_pos h1] at h
    by_cases h2 : (args.length != 1) = true
    · rw [if_pos h2] at h
      exact Option.noConfusion h
    · rw [if_neg h2] at h
      exact List.mem_of_mem_head? (Option.mem_def.mpr h)
  · rw [if_neg h1] at h
    by_cases h3 : (construct == "fmt.Errorf") = true
    · rw [if_pos h3] at h
      exact List.mem_of_mem_head? (Option.mem_def.mpr h)
    · rw [if_neg h3] at h
      by_cases h4 : construct ∈ logConstructNames
      · rw [if_pos h4] at h
        exact List.mem_of_mem_head? (Option.mem_def.mpr h)
      · rw [if_neg h4] at h
        cases args with
        | nil => exact Option.noConfusion h
        | cons x t =>
          have h' : (if isStringLitB x = true then some x
              else List.find? isStringLitB (x :: t)) = some a := h
          by_cases hx : isStringLitB x = true
          · rw [if_pos hx] at h'
            injection h' with hxa
            subst hxa
            exact List.mem_cons_self _ _
          · rw [if_neg hx] at h'
            exact List.mem_of_find?_eq_some h'

/-- For the construct names listed in the extractor's switch, the designated
message argument of a non-empty argument list is the first argument (for
`errors.New` additionally guarded by the single-argument check). -/
theorem msgArgOf_switch_first {construct : String}
    (h : construct ∈ "errors.New" :: "fmt.Errorf" :: logConstructNames)
    (a : Expr) (t : List Expr) :
    msgArgOf construct (a :: t) = none ∨ msgArgOf construct (a :: t) = some a := by
  simp only [logConstructNames, List.mem_cons, List.not_mem_nil, or_false] at h
  rcases h with h | h | h | h | h | h | h | h <;> subst h
  · by_cases hl : (((a :: t).length != 1) = true)
    · exact Or.inl (by
        rw [show msgArgOf "errors.New" (a :: t) =
          (if ((a :: t).length != 1) = true then none else (a :: t).head?) from rfl,
          if_pos hl])
    · exact Or.inr (by
        rw [show msgArgOf "errors.New" (a :: t) =
          (if ((a :: t).length != 1) = true then none else (a :: t).head?) from rfl,
          if_neg hl]
        rfl)
  · exact Or.inr rfl
  · exact Or.inr rfl
  · exact Or.inr rfl
  · exact Or.inr rfl
  · exact Or.inr rfl
  · exact Or.inr rfl
  · exact Or.inr rfl

/-- An unmatched call shape contributes no record. -/
theorem recordOf_none_of_no_construct {c : CallNode}
    (h : getErrorConstructName c.fn = "") : recordOf c = none := by
  have he : extractErrorMessage c = ("", "") := by
    unfold extractErrorMessage
    rw [h]
    rfl
  unfold recordOf
  rw [he]
  rfl

/-- A call whose extracted message is empty contributes no record. -/
theorem recordOf_none_of_empty_msg {c : CallNode}
    (h : (extractErrorMessage c).2 = "") : recordOf c = none := by
  unfold recordOf
  rw [if_pos (by simp [h])]

/- ### Claim theorems -/

/-- Claim C3 (code bug): the reporting loop ranges over a Go map, whose key
enumeration order is unspecified and randomized at runtime. On a registry
with two duplicated keys, the two enumeration orders of the key set — both
permutations of the registry's keys — produce different diagnostic
sequences, so the emitted order is not stable across runs. -/
theorem C3_group_order_unstable :
    (["connection failed", "other failure"].Perm (firstKeys (records sampleNodes4)) ∧
     ["other failure", "connection failed"].Perm (firstKeys (records sampleNodes4))) ∧
    runWithOrder sampleNodes4 ["connection failed", "other failure"] ≠
      runWithOrder sampleNodes4 ["other failure", "connection failed"] := by
  refine ⟨⟨?_, ?_⟩, ?_⟩ <;> decide

/-- Claim C4: the literal tokens for "user %s not found", "user %v not
found" and "user %d not found" all normalize to the same key, and two such
occurrences are grouped as duplicates. -/
theorem C4_format_verb_variants :
    extractStringLiteral (.basicLit .str "\"user %s not found\"") = "user %x not found" ∧
    extractStringLiteral (.basicLit .str "\"user %v not found\"") = "user %x not found" ∧
    extractStringLiteral (.basicLit .str "\"user %d not found\"") = "user %x not found" ∧
    groups [sampleUserS, sampleUserV] =
      [("user %x not found",
        [⟨⟨"f.go", 5, 2⟩, "fmt.Errorf"⟩, ⟨⟨"f.go", 6, 2⟩, "fmt.Errorf"⟩])] := by
  refine ⟨?_, ?_, ?_, ?_⟩ <;> decide

/-- Claim C5 counterexample: on the literal token for "%sd" the code replaces
the whole of "%sd" (its character class between `%` and the final letter
includes the letters, so the match extends to the last letter `d`), yielding
"%x"; the claimed substitution — flag set of digits, `.`, `-`, `+`, `#` only,
then exactly one letter — would replace just "%s" and yield "%xd". -/
theorem C5_counterexample :
    extractStringLiteral (.basicLit .str "\"%sd\"") = "%x" ∧
    String.mk (specClaimedNormalize ("%sd".data)) = "%xd" ∧
    normalizeFormat ("%sd".data) ≠ specClaimedNormalize ("%sd".data) := by
  refine ⟨?_, ?_, ?_⟩ <;> decide

/-- Claim C5 amended: the normalizer replaces, at each percent sign, the
longest following substring made of characters from the class letters,
digits, `.`, `-`, `+`, `#` ending in a letter, with the placeholder; a
percent sign with no such match — in particular one not followed by any
letter — is left untouched (e.g. the content "50% done" is unchanged). -/
theorem C5_amended_normalizer :
    (∀ l : List Char, normalizeFormat l = specAmendedNormalize l) ∧
    normalizeFormat ("50% done".data) = "50% done".data :=
  ⟨fun l => nfGo_eq_specAmendedGo l 0, by decide⟩

/-- Claim C6 counterexample: on the raw-literal token `` `"a"` `` the code
strips the backquotes and the content's own double quotes (its trim removes
every leading and trailing quote character), yielding `a`, while stripping
exactly one surrounding pair would yield `"a"`. -/
theorem C6_counterexample :
    goTrim ("`\"a\"`".data) = "a".data ∧
    specStripOnePair ("`\"a\"`".data) = "\"a\"".data ∧
    goTrim ("`\"a\"`".data) ≠ specStripOnePair ("`\"a\"`".data) ∧
    extractStringLiteral (.basicLit .str "`\"a\"`") = "a" := by
  refine ⟨?_, ?_, ?_, ?_⟩ <;> decide

/-- Claim C6 amended: step 1 strips every leading and every trailing quote
or backquote character (not just one surrounding pair): the token is the
result surrounded by quote-delimiter characters, and the result neither
begins nor ends with a quote-delimiter character. -/
theorem C6_amended_trim (l : List Char) :
    ∃ a b, l = (a ++ goTrim l) ++ b ∧
      a.all isQuoteDelim = true ∧ b.all isQuoteDelim = true ∧
      ((goTrim l).head?.all (fun c => !isQuoteDelim c)) = true ∧
      ((goTrim l).getLast?.all (fun c => !isQuoteDelim c)) = true := by
  have h2 : l.dropWhile isQuoteDelim =
      goTrim l ++ ((l.dropWhile isQuoteDelim).reverse.takeWhile isQuoteDelim).reverse := by
    have h3 := List.takeWhile_append_dropWhile isQuoteDelim (l.dropWhile isQuoteDelim).reverse
    have h4 := congrArg List.reverse h3
    rw [List.reverse_append, List.reverse_reverse] at h4
    exact h4.symm
  refine ⟨l.takeWhile isQuoteDelim,
    ((l.dropWhile isQuoteDelim).reverse.takeWhile isQuoteDelim).reverse, ?_, ?_, ?_, ?_, ?_⟩
  · calc l = l.takeWhile isQuoteDelim ++ l.dropWhile isQuoteDelim :=
        (List.takeWhile_append_dropWhile _ _).symm
      _ = l.takeWhile isQuoteDelim ++
            (goTrim l ++ ((l.dropWhile isQuoteDelim).reverse.takeWhile isQuoteDelim).reverse) := by
        rw [← h2]
      _ = (l.takeWhile isQuoteDelim ++ goTrim l) ++
            ((l.dropWhile isQuoteDelim).reverse.takeWhile isQuoteDelim).reverse := by
        rw [List.append_assoc]
  · rw [List.all_eq_true]
    intro x hx
    exact List.mem_takeWhile_imp hx
  · rw [List.all_eq_true]
    intro x hx
    rw [List.mem_reverse] at hx
    exact List.mem_takeWhile_imp hx
  · cases hgt : (goTrim l).head? with
    | none => rfl
    | some x =>
      have hl1 : (l.dropWhile isQuoteDelim).head? = some x := by
        rw [h2, List.head?_append, hgt]
        rfl
      have h := List.head?_dropWhile_not isQuoteDelim l
      rw [hl1] at h
      simp [Option.all, h]
  · cases hgt : (goTrim l).getLast? with
    | none => rfl
    | some x =>
      have hd : ((l.dropWhile isQuoteDelim).reverse.dropWhile isQuoteDelim).head? = some x := by
        have := hgt
        rw [show goTrim l =
          ((l.dropWhile isQuoteDelim).reverse.dropWhile isQuoteDelim).reverse from rfl,
          List.getLast?_reverse] at this
        exact this
      have h := List.head?_dropWhile_not isQuoteDelim (l.dropWhile isQuoteDelim).reverse
      rw [hd] at h
      simp [Option.all, h]

/-- Claim C1: two recorded occurrences appear in the same reported duplicate
group exactly when their normalized keys are equal and that key has at least
two occurrences; a key with exactly one occurrence yields no diagnostic and
no group. -/
theorem C1_grouping_iff (nodes : List CallNode) :
    (∀ r1 ∈ records nodes, ∀ r2 ∈ records nodes,
      (∃ k locs, (k, locs) ∈ groups nodes ∧ r1.1 = k ∧ r2.1 = k ∧
        r1.2 ∈ locs ∧ r2.2 ∈ locs) ↔
      (r1.1 = r2.1 ∧ 2 ≤ (lookupAll r1.1 (records nodes)).length)) ∧
    (∀ k, (lookupAll k (records nodes)).length = 1 →
      reportGroup k (lookupAll k (records nodes)) = [] ∧
        ∀ locs, (k, locs) ∉ groups nodes) := by
  constructor
  · intro r1 h1 r2 h2
    constructor
    · rintro ⟨k, locs, hg, hk1, hk2, _, _⟩
      obtain ⟨_, hlocs, hlen⟩ := mem_groups.mp hg
      refine ⟨hk1.trans hk2.symm, ?_⟩
      rw [hk1, ← hlocs]
      omega
    · rintro ⟨hkeq, hlen⟩
      refine ⟨r1.1, lookupAll r1.1 (records nodes), ?_, rfl, hkeq.symm, ?_, ?_⟩
      · refine mem_groups.mpr ⟨mem_firstKeys.mpr ⟨r1.2, ?_⟩, rfl, by omega⟩
        rw [Prod.mk.eta]
        exact h1
      · refine mem_lookupAll.mpr ?_
        rw [Prod.mk.eta]
        exact h1
      · refine mem_lookupAll.mpr ?_
        rw [hkeq, Prod.mk.eta]
        exact h2
  · intro k hlen
    constructor
    · cases hL : lookupAll k (records nodes) with
      | nil => rfl
      | cons x xs =>
        have hxs : xs = [] := by
          rw [hL, List.length_cons] at hlen
          exact List.eq_nil_of_length_eq_zero (by omega)
        rw [hxs]
        rfl
    · intro locs hg
      obtain ⟨_, hlocs, hlen2⟩ := mem_groups.mp hg
      rw [hlocs] at hlen2
      omega

/-- Witness for C1 on a concrete traversal: the two "connection failed"
occurrences share a group, and the singleton key "unique message" is
reported nowhere. -/
theorem C1_witness :
    (∃ k locs, (k, locs) ∈ groups sampleNodes ∧ sampleRec1.1 = k ∧ sampleRec2.1 = k ∧
      sampleRec1.2 ∈ locs ∧ sampleRec2.2 ∈ locs) ∧
    (reportGroup "unique message" (lookupAll "unique message" (records sampleNodes)) = [] ∧
      ∀ locs, ("unique message", locs) ∉ groups sampleNodes) :=
  ⟨((C1_grouping_iff sampleNodes).1 sampleRec1 (by decide) sampleRec2 (by decide)).mpr
      (by decide),
   (C1_grouping_iff sampleNodes).2 "unique message" (by decide)⟩

/-- Claim C2: in every reported group, the single primary diagnostic is
emitted at the earliest occurrence (the first record of that key in
traversal order) with message `duplicate error message "<key>" used in
multiple locations`, and every other occurrence gets, at its own position,
`duplicate error message "<key>" also used at <file>:<line>:<column>`
rendering the primary occurrence's position; the group's block appears in
the run's output. -/
theorem C2_primary_and_secondaries (nodes : List CallNode) (k : String)
    (locs : List ErrorInfo) (h : (k, locs) ∈ groups nodes) :
    ∃ first rest, locs = first :: rest ∧
      (∃ pre post, records nodes = pre ++ (k, first) :: post ∧ ∀ r ∈ pre, r.1 ≠ k) ∧
      reportGroup k locs =
        ⟨first.pos, "duplicate error message " ++ goQuote k ++ " used in multiple locations"⟩ ::
          rest.map (fun info =>
            ⟨info.pos, "duplicate error message " ++ goQuote k ++ " also used at " ++
              Pos.render first.pos⟩) ∧
      reportGroup k locs <:+: run nodes := by
  obtain ⟨hk, hlocs, hlen⟩ := mem_groups.mp h
  rcases locs with _ | ⟨first, rest⟩
  · simp at hlen
  · refine ⟨first, rest, rfl, ?_, ?_, ?_⟩
    · exact lookupAll_cons_first hlocs.symm
    · have hrest : 0 < rest.length := by
        rw [List.length_cons] at hlen
        omega
      show (if 0 < rest.length then _ else []) = _
      rw [if_pos hrest]
    · obtain ⟨l1, l2, hsplit⟩ := List.append_of_mem hk
      refine ⟨(l1.map
          (fun k => reportGroup k (lookupAll k (records nodes)))).flatten,
        (l2.map (fun k => reportGroup k (lookupAll k (records nodes)))).flatten, ?_⟩
      rw [run, runWithOrder, hsplit, List.map_append, List.map_cons, List.flatten_append,
        List.flatten_cons, ← hlocs, List.append_assoc]

/-- Witness for C2 at the concrete group of `sampleNodes`. -/
theorem C2_witness :
    ∃ first rest,
      ([⟨samplePos1, "errors.New"⟩, ⟨samplePos2, "errors.New"⟩] : List ErrorInfo) =
        first :: rest ∧
      (∃ pre post, records sampleNodes = pre ++ ("connection failed", first) :: post ∧
        ∀ r ∈ pre, r.1 ≠ "connection failed") ∧
      reportGroup "connection failed"
          [⟨samplePos1, "errors.New"⟩, ⟨samplePos2, "errors.New"⟩] =
        ⟨first.pos, "duplicate error message " ++ goQuote "connection failed" ++
            " used in multiple locations"⟩ ::
          rest.map (fun info =>
            ⟨info.pos, "duplicate error message " ++ goQuote "connection failed" ++
              " also used at " ++ Pos.render first.pos⟩) ∧
      reportGroup "connection failed"
          [⟨samplePos1, "errors.New"⟩, ⟨samplePos2, "errors.New"⟩] <:+:
        run sampleNodes :=
  C2_primary_and_secondaries sampleNodes "connection failed"
    [⟨samplePos1, "errors.New"⟩, ⟨samplePos2, "errors.New"⟩] (by decide)

/-- Claim C9 counterexample: `zlog.Errorf(code, "fallback message")` is a
rule-3 call (its namespace contains "log", and `Errorf` matches the suffix
table), and its message argument position — the first argument — is not a
string literal; yet, contrary to the claim, the call DOES contribute an
occurrence: the resolved construct name `zlog` misses the extractor's
switch, so the generic scan records the later literal. -/
theorem C9_counterexample :
    getErrorConstructName (.selector (.ident "zlog") "Errorf") = "zlog" ∧
    isStringLitB (.ident "code") = false ∧
    recordOf ⟨.selector (.ident "zlog") "Errorf",
        [.ident "code", .basicLit .str "\"fallback message\""], ⟨"g.go", 4, 5⟩⟩ =
      some ("fallback message", ⟨⟨"g.go", 4, 5⟩, "zlog"⟩) := by
  refine ⟨?_, ?_, ?_⟩ <;> decide

/-- Claim C9 amended: recognition and extraction are total functions with no
error outcome, and these cases contribute no occurrence to the registry: an
unmatched call shape; a call resolved to one of the switch-listed construct
names (`errors.New`, `fmt.Errorf`, `log`, `logger`, `Log`, `Logf`,
`LogError`, `LogErrorf`) whose message argument position — the first
argument — is not a string literal; a recognized call none of whose
arguments is a string literal; and a message normalizing to the empty
string. (A rule-3 call whose namespace merely contains "log" resolves to a
construct name outside that switch list and can contribute an occurrence
from a later literal argument even though its first argument is not a
literal — see the counterexample.) -/
theorem C9_amended_no_error_outcomes (c : CallNode) :
    (getErrorConstructName c.fn = "" → recordOf c = none) ∧
    (getErrorConstructName c.fn ∈ "errors.New" :: "fmt.Errorf" :: logConstructNames →
      (c.args.head?.all (fun a => !isStringLitB a)) = true → recordOf c = none) ∧
    ((∀ a ∈ c.args, isStringLitB a = false) → recordOf c = none) ∧
    ((extractErrorMessage c).2 = "" → recordOf c = none) := by
  refine ⟨fun h => recordOf_none_of_no_construct h, fun hmem hfirst => ?_, fun hall => ?_,
    fun h => recordOf_none_of_empty_msg h⟩
  · apply recordOf_none_of_empty_msg
    unfold extractErrorMessage
    by_cases h1 : (getErrorConstructName c.fn == "") = true
    · rw [if_pos h1]
    · rw [if_neg h1]
      by_cases h2 : c.args.isEmpty = true
      · rw [if_pos h2]
      · rw [if_neg h2]
        cases hargs : c.args with
        | nil => exact absurd (by rw [hargs]; rfl) h2
        | cons a t =>
          have ha : isStringLitB a = false := by
            rw [hargs] at hfirst
            have hba : (!isStringLitB a) = true := hfirst
            cases hb : isStringLitB a
            · rfl
            · rw [hb] at hba
              exact absurd hba (by decide)
          rcases msgArgOf_switch_first hmem a t with hm | hm
          · rw [hm]
          · rw [hm]
            simp only [extractStringLiteral_of_not_lit ha]
            rfl
  · apply recordOf_none_of_empty_msg
    unfold extractErrorMessage
    by_cases h1 : (getErrorConstructName c.fn == "") = true
    · rw [if_pos h1]
    · rw [if_neg h1]
      by_cases h2 : c.args.isEmpty = true
      · rw [if_pos h2]
      · rw [if_neg h2]
        cases hm : msgArgOf (getErrorConstructName c.fn) c.args with
        | none => rfl
        | some arg =>
          have hmem2 : arg ∈ c.args := msgArgOf_mem hm
          have hlit : isStringLitB arg = false := hall arg hmem2
          simp only [extractStringLiteral_of_not_lit hlit]
          rfl

/-- Witness for the amended C9 at four concrete calls: an unmatched bare
call, an `errors.New` with a non-literal first argument, a fallback
constructor with no literal argument anywhere, and an `errors.New` with an
empty literal. -/
theorem C9_witness :
    recordOf sampleUnmatched = none ∧ recordOf sampleNonLit = none ∧
      recordOf sampleFallbackNoLit = none ∧ recordOf sampleEmptyLit = none :=
  ⟨(C9_amended_no_error_outcomes sampleUnmatched).1 (by decide),
   (C9_amended_no_error_outcomes sampleNonLit).2.1 (by decide) (by decide),
   (C9_amended_no_error_outcomes sampleFallbackNoLit).2.2.1 (by decide),
   (C9_amended_no_error_outcomes sampleEmptyLit).2.2.2 (by decide)⟩

/-- Claim C7 counterexample: `mylog.Printf(x, "oops")` is recognized as a
logging-family call (its namespace contains "log"), yet its first argument is
not a string literal and the call is not ignored: the extractor falls into
the generic scan and uses the string literal in the second argument position
as the message. -/
theorem C7_counterexample :
    getErrorConstructName (.selector (.ident "mylog") "Printf") = "mylog" ∧
    extractErrorMessage ⟨.selector (.ident "mylog") "Printf",
      [.ident "x", .basicLit .str "\"oops\""], ⟨"a.go", 1, 1⟩⟩ = ("mylog", "oops") := by
  refine ⟨?_, ?_⟩ <;> decide

/-- Claim C7 amended: the first-argument rule holds exactly for the
construct names the extractor's switch lists — `log`, `logger`, `Log`,
`Logf`, `LogError`, `LogErrorf`. For those, the message comes from the first
argument only: the call contributes nothing when there is no argument or the
first argument does not normalize to a non-empty literal string, and a
string literal in a later position is never consulted. A logging namespace
that merely contains "log" resolves to a different construct name and falls
to the generic scan instead (see the counterexample). -/
theorem C7_amended_first_argument (c : CallNode)
    (h : getErrorConstructName c.fn ∈ logConstructNames) :
    extractErrorMessage c =
      (match c.args with
       | [] => ("", "")
       | a :: _ =>
         if extractStringLiteral a == "" then ("", "")
         else (getErrorConstructName c.fn, extractStringLiteral a)) := by
  have hne : getErrorConstructName c.fn ≠ "" := by
    intro he
    rw [he] at h
    exact absurd h (by decide)
  have hbne : ¬((getErrorConstructName c.fn == "") = true) := by
    simp only [beq_iff_eq]
    exact hne
  have hm1 : ¬((getErrorConstructName c.fn == "errors.New") = true) := by
    simp only [beq_iff_eq]
    intro he
    rw [he] at h
    exact absurd h (by decide)
  have hm2 : ¬((getErrorConstructName c.fn == "fmt.Errorf") = true) := by
    simp only [beq_iff_eq]
    intro he
    rw [he] at h
    exact absurd h (by decide)
  unfold extractErrorMessage
  rw [if_neg hbne]
  cases hargs : c.args with
  | nil => rfl
  | cons a t =>
    rw [if_neg (by simp : ¬((a :: t).isEmpty = true))]
    have hmsg : msgArgOf (getErrorConstructName c.fn) (a :: t) = some a := by
      unfold msgArgOf
      rw [if_neg hm1, if_neg hm2, if_pos h]
      rfl
    rw [hmsg]

/-- Witness for C7 at the concrete call `log.Printf("request failed: %d",
code)`. -/
theorem C7_witness :
    extractErrorMessage sampleLogPrintf =
      (match sampleLogPrintf.args with
       | [] => ("", "")
       | a :: _ =>
         if extractStringLiteral a == "" then ("", "")
         else (getErrorConstructName sampleLogPrintf.fn, extractStringLiteral a)) :=
  C7_amended_first_argument sampleLogPrintf (by decide)

/-- Claim C8 counterexample: calls of shape `<receiver>.<Method>` whose
method name matches the naming convention (here `NewError`) are not
recognized when the receiver is itself a call or a nested selector — the
fallback requires the receiver to be a bare identifier. -/
theorem C8_counterexample :
    getErrorConstructName (.selector (.callE (.ident "foo") []) "NewError") = "" ∧
    getErrorConstructName (.selector (.selector (.ident "a") "b") "NewError") = "" ∧
    extractErrorMessage ⟨.selector (.callE (.ident "foo") []) "NewError",
      [.basicLit .str "\"x\""], ⟨"a.go", 1, 1⟩⟩ = ("", "") := by
  refine ⟨?_, ?_, ?_⟩ <;> decide

/-- Claim C8 amended: the naming-convention fallback applies to calls
`<ident>.<Method>` whose receiver is a bare identifier, when no earlier rule
matches (not `errors.New` or `fmt.Errorf`, and not a log-namespace/suffix
match) and when `Method` is none of the six construct names the extractor's
switch treats as first-argument-only; then the construct is `Method` and the
message is resolved as: the first argument if it is a string literal,
otherwise the first string literal among all arguments, otherwise none. -/
theorem C8_amended_fallback (name method : String) (args : List Expr) (p : Pos)
    (h1 : ¬(name = "errors" ∧ method = "New"))
    (h2 : ¬(name = "fmt" ∧ method = "Errorf"))
    (h3 : ¬(isLogNamespace name = true ∧ logSuffixMatch method = true))
    (h4 : fallbackNameMatch method = true)
    (h5 : method ∉ ["errors.New", "fmt.Errorf", "log", "logger", "Log", "Logf",
      "LogError", "LogErrorf"]) :
    getErrorConstructName (.selector (.ident name) method) = method ∧
    extractErrorMessage ⟨.selector (.ident name) method, args, p⟩ =
      (match args.find? isStringLitB with
       | none => ("", "")
       | some a =>
         if extractStringLiteral a == "" then ("", "")
         else (method, extractStringLiteral a)) := by
  have hb1 : ¬((name == "errors" && method == "New") = true) := by
    simp only [Bool.and_eq_true, beq_iff_eq]
    exact h1
  have hb2 : ¬((name == "fmt" && method == "Errorf") = true) := by
    simp only [Bool.and_eq_true, beq_iff_eq]
    exact h2
  have hb3 : ¬((isLogNamespace name && logSuffixMatch method) = true) := by
    simp only [Bool.and_eq_true]
    exact h3
  have hg : getErrorConstructName (.selector (.ident name) method) = method := by
    show (if (name == "errors" && method == "New") = true then "errors.New"
      else if (name == "fmt" && method == "Errorf") = true then "fmt.Errorf"
      else if (isLogNamespace name && logSuffixMatch method) = true then name
      else if fallbackNameMatch method = true then method
      else "") = method
    rw [if_neg hb1, if_neg hb2, if_neg hb3, if_pos h4]
  have hne : method ≠ "" := by
    intro he
    rw [he] at h4
    exact absurd h4 (by decide)
  have hbne : ¬((method == "") = true) := by
    simp only [beq_iff_eq]
    exact hne
  have hm1 : ¬((method == "errors.New") = true) := by
    simp only [beq_iff_eq]
    intro he
    apply h5
    rw [he]
    exact List.mem_cons_self _ _
  have hm2 : ¬((method == "fmt.Errorf") = true) := by
    simp only [beq_iff_eq]
    intro he
    apply h5
    rw [he]
    exact List.mem_cons_of_mem _ (List.mem_cons_self _ _)
  have hm3 : method ∉ logConstructNames := by
    intro hm
    apply h5
    simp only [logConstructNames, List.mem_cons, List.not_mem_nil, or_false] at hm
    rcases hm with h | h | h | h | h | h <;> rw [h] <;> decide
  refine ⟨hg, ?_⟩
  unfold extractErrorMessage
  rw [show CallNode.fn ⟨.selector (.ident name) method, args, p⟩ =
    .selector (.ident name) method from rfl, hg]
  rw [if_neg hbne]
  cases args with
  | nil => rfl
  | cons a t =>
    rw [if_neg (by simp : ¬((a :: t).isEmpty = true))]
    have hmsg : msgArgOf method (a :: t) = (a :: t).find? isStringLitB := by
      unfold msgArgOf
      rw [if_neg hm1, if_neg hm2, if_neg hm3]
      show (if isStringLitB a = true then some a else (a :: t).find? isStringLitB) = _
      by_cases hx : isStringLitB a = true
      · rw [if_pos hx]
        exact (List.find?_cons_of_pos _ hx).symm
      · rw [if_neg hx]
    rw [hmsg]

/-- Witness for C8 at the concrete call `svc.NewUserError(x, "boom")`. -/
theorem C8_witness :
    getErrorConstructName (.selector (.ident "svc") "NewUserError") = "NewUserError" ∧
    extractErrorMessage ⟨.selector (.ident "svc") "NewUserError",
        [.ident "x", .basicLit .str "\"boom\""], ⟨"c.go", 2, 3⟩⟩ =
      (match ([.ident "x", .basicLit .str "\"boom\""] : List Expr).find? isStringLitB with
       | none => ("", "")
       | some a =>
         if extractStringLiteral a == "" then ("", "")
         else ("NewUserError", extractStringLiteral a)) :=
  C8_amended_fallback "svc" "NewUserError" [.ident "x", .basicLit .str "\"boom\""]
    ⟨"c.go", 2, 3⟩ (by decide) (by decide) (by decide) (by decide) (by decide)

/-- Claim C10: the double-quoted token for "a\nb" (escape sequence) and the
raw backquoted token holding an actual newline denote the same runtime
string — witnessed by decoding the escape — yet the normalizer compares raw
token text, produces different keys for them, and the pair is never reported
as a duplicate. -/
theorem C10_escapes_not_decoded :
    decodeNewlineEscape (goTrim ("\"a\\nb\"".data)) = goTrim ("`a\nb`".data) ∧
    extractStringLiteral (.basicLit .str "\"a\\nb\"") ≠
      extractStringLiteral (.basicLit .str "`a\nb`") ∧
    run [⟨.selector (.ident "errors") "New", [.basicLit .str "\"a\\nb\""], ⟨"e.go", 1, 1⟩⟩,
         ⟨.selector (.ident "errors") "New", [.basicLit .str "`a\nb`"], ⟨"e.go", 2, 1⟩⟩] = [] := by
  refine ⟨?_, ?_, ?_⟩ <;> decide

end Duperrormsg
